import Mathlib

set_option autoImplicit false

namespace Caribou

/-!
Shallow embedding of the reactive-cell (`src/caribou/state.rs`), layout
(`src/caribou/layout.rs`) and focus (`src/caribou/focus.rs`) modules of the
caribou_next repository.  Listener closures are opaque, so they are modelled
by `Nat` tags; the parallel name registry (`ListenerIdentities`) is a list of
strings, exactly as in the source.  Operations that can hit a Rust panic
(`unwrap` on `None`, out-of-bounds `Vec` indexing) return a `PanicOr` value.
Event notification is modelled by returning the list of events that the
operation schedules (the source spawns one task per listener per event; the
claims are about which events get scheduled at all).
-/

/-- Result of an operation that may hit a panic (an `unwrap` on `None` or an
out-of-bounds `Vec` index) in the Rust source. -/
inductive PanicOr (α : Type) where
  | ok (val : α)
  | panicked
  deriving DecidableEq

/-- First index of `t` in `l`; embeds `iter().position(|x| x == t)`. -/
def listPos {α : Type} [DecidableEq α] : List α → α → Option Nat
  | [], _ => none
  | a :: rest, t => if a = t then some 0 else (listPos rest t).map (fun i => i + 1)

/-- The listener registry of a scalar `State<T>` cell: the listener vector and
the parallel `identities` name vector (`state.rs` lines 187-192).  Listener
closures are opaque and are represented by `Nat` tags. -/
structure ScalarState where
  listeners : List Nat
  identities : List String
  deriving DecidableEq

/-- `State::listen` (`state.rs` 258-261): pushes the boxed listener onto
`listeners`.  The `name` argument is taken but the source never pushes it
onto `identities`. -/
def ScalarState.listen (s : ScalarState) (_name : String) (f : Nat) : ScalarState :=
  { s with listeners := s.listeners ++ [f] }

/-- `State::remove_listener` (`state.rs` 263-270): look the name up in
`identities`; when found remove that index from both vectors, otherwise do
nothing (`if let Some(index) = ...`). -/
def ScalarState.removeListener (s : ScalarState) (name : String) : ScalarState :=
  match listPos s.identities name with
  | none => s
  | some i =>
    { listeners := s.listeners.eraseIdx i, identities := s.identities.eraseIdx i }

/-- `State::notify` (`state.rs` 272-281) spawns one task per entry of
`listeners`: these are the listeners notified by a mutation. -/
def ScalarState.notifyTargets (s : ScalarState) : List Nat :=
  s.listeners

/-- The `if let Some(index) = ids.iter().position(...)` removal pattern used
by `State`, `StateVec::remove_listener_add` (`state.rs` 747-754) and
`StateMap::remove_listener`: a silent no-op when the name is absent. -/
def StateVec.removeListenerAdd (ls : List Nat) (ids : List String) (name : String) :
    List Nat × List String :=
  match listPos ids name with
  | none => (ls, ids)
  | some i => (ls.eraseIdx i, ids.eraseIdx i)

/-- `OptionalState::remove_listener_set` (`state.rs` 495-501; the `_unset`
and `_change` variants at 503-517 are identical): the index is obtained by
`position(...).unwrap()`, which panics when the name was never registered. -/
def OptionalState.removeListenerSet (ls : List Nat) (ids : List String) (name : String) :
    PanicOr (List Nat × List String) :=
  match listPos ids name with
  | none => .panicked
  | some i => .ok (ls.eraseIdx i, ids.eraseIdx i)

/-- `StateVecAddEvent` (`state.rs` 599-604): the index and the new value. -/
structure VecAddEvent (α : Type) where
  index : Nat
  newValue : α
  deriving DecidableEq

/-- `StateVecRemoveEvent` (`state.rs` 637-642): the old index and old value. -/
structure VecRemoveEvent (α : Type) where
  oldIndex : Nat
  oldValue : α
  deriving DecidableEq

/-- `StateMapEvent` (`state.rs` 850-856). -/
structure MapEvent (K V : Type) where
  key : K
  oldValue : Option V
  newValue : Option V
  deriving DecidableEq

/-- `StateVec::push` (`state.rs` 677-681): push the value under the write
lock, then `notify_add(lock.len() - 1, data)`. -/
def StateVec.push {α : Type} (l : List α) (v : α) : List α × List (VecAddEvent α) :=
  (l ++ [v], [⟨(l ++ [v]).length - 1, v⟩])

/-- `StateVec::pop` (`state.rs` 687-694): `Vec::pop` under the write lock;
when a value came out, `notify_remove(lock.len(), value)` with the length
read after the removal. -/
def StateVec.pop {α : Type} (l : List α) :
    Option α × List α × List (VecRemoveEvent α) :=
  match l.getLast? with
  | none => (none, l, [])
  | some v => (some v, l.dropLast, [⟨l.dropLast.length, v⟩])

/-- `StateVec::remove_at` (`state.rs` 711-716): `lock.remove(index)` is
`Vec::remove`, which panics when `index` is out of range; otherwise it
removes and returns the element and `notify_remove(index, old_value)` runs. -/
def StateVec.removeAt {α : Type} (l : List α) (i : Nat) :
    PanicOr (α × List α × List (VecRemoveEvent α)) :=
  if h : i < l.length then
    .ok (l.get ⟨i, h⟩, l.eraseIdx i, [⟨i, l.get ⟨i, h⟩⟩])
  else .panicked

/-- Association-list lookup, the model of `HashMap::get`/presence of a key. -/
def assocLookup {K V : Type} [DecidableEq K] : List (K × V) → K → Option V
  | [], _ => none
  | (k2, v) :: rest, k => if k2 = k then some v else assocLookup rest k

/-- Association-list removal of the entry for a key, the model of the
mutation done by `HashMap::remove`. -/
def assocErase {K V : Type} [DecidableEq K] : List (K × V) → K → List (K × V)
  | [], _ => []
  | (k2, v) :: rest, k => if k2 = k then rest else (k2, v) :: assocErase rest k

/-- `StateMap::remove` (`state.rs` 905-912): `lock.remove(key)`; only when an
old value came out is `notify(key, Some(value), None)` run; on an absent key
it returns `None`, schedules nothing and mutates nothing. -/
def StateMap.remove {K V : Type} [DecidableEq K] (m : List (K × V)) (k : K) :
    Option V × List (K × V) × List (MapEvent K V) :=
  match assocLookup m k with
  | none => (none, m, [])
  | some v => (some v, assocErase m k, [⟨k, some v, none⟩])

/-- `Layout::remove_child` mutates the parent's children through
`get_vec_mut().retain(|c| c != &child)` (`layout.rs` 139): a raw write guard,
so no `notify_remove` ever runs — the scheduled event list is empty. -/
def Layout.childrenRetain (l : List Nat) (c : Nat) :
    List Nat × List (VecRemoveEvent Nat) :=
  (l.filter (fun x => x != c), [])

/-- `GadgetParent` (`gadget.rs` 96-100): none, another gadget (by reference),
or the window. -/
inductive GadgetParent where
  | none
  | gadget (id : Nat)
  | window
  deriving DecidableEq

/-- The cells of one gadget that the focus and layout algorithms read
(`gadget.rs` 62-78), plus an `alive` flag modelling whether a `GadgetRef`
to it still resolves (`GadgetRef::get`, `gadget.rs` 52).  Gadgets are
identified by `Nat` identities; equality of `Gadget`/`GadgetRef` handles in
the source is identity equality. -/
structure GadgetData where
  alive : Bool
  acceptFocus : Bool
  lockFocus : Bool
  propagate : Bool
  parent : GadgetParent
  children : List Nat
  deriving DecidableEq

/-- The gadget heap: every identity maps to its cell record. -/
def World := Nat → GadgetData

/-- `GadgetRef::get`: resolves to the gadget only while it is alive. -/
def resolve (w : World) (g : Nat) : Option GadgetData :=
  if (w g).alive then some (w g) else none

/-- Write the `parent` cell of gadget `c` (`child.parent.set(..)`). -/
def setParent (w : World) (c : Nat) (p : GadgetParent) : World :=
  fun i => if i = c then { w i with parent := p } else w i

/-- `parent.children.push(child)` — append to the children list cell. -/
def pushChild (w : World) (p c : Nat) : World :=
  fun i => if i = p then { w i with children := (w i).children ++ [c] } else w i

/-- `parent.children.get_vec_mut().retain(|x| x != &child)`. -/
def retainChildren (w : World) (p c : Nat) : World :=
  fun i =>
    if i = p then { w i with children := (w i).children.filter (fun x => x != c) }
    else w i

/-- `Layout::add_child` (`layout.rs` 132-135): set the child's parent cell to
the parent gadget, then push the child onto the parent's children cell. -/
def Layout.addChild (w : World) (p c : Nat) : World :=
  pushChild (setParent w c (.gadget p)) p c

/-- `Layout::remove_child` (`layout.rs` 137-140): set the child's parent cell
to none, then retain-filter it out of the parent's children cell. -/
def Layout.removeChild (w : World) (p c : Nat) : World :=
  retainChildren (setParent w c .none) p c

/-- Result of one `cycle()` call: the new value of the tracker's `focused`
cell, a panic, or exhaustion of the step budget of the embedding (the
source loops are unbounded loops; `fuelOut` never occurs for the budgets
used in the theorems below). -/
inductive CycleRes where
  | ok (focused : Option Nat)
  | panicked
  | fuelOut
  deriving DecidableEq

/-- `CaribouFocus::focus_locked` (`focus.rs` 82-90). -/
def focusLocked (w : World) (focused : Option Nat) : Bool :=
  match focused with
  | none => false
  | some g =>
    match resolve w g with
    | none => false
    | some d => d.lockFocus

/-- Whether a manual-order entry resolves to a gadget whose `accept_focus`
cell is true (`focus.rs` 126-127: `if let Some(gadget) = ...get()` then
`gadget.accept_focus.get_cloned()`). -/
def candidateAccepts (w : World) (g : Nat) : Bool :=
  match resolve w g with
  | some d => d.acceptFocus
  | none => false

/-- The start index of the manual scan (`focus.rs` 117-123): 0 when nothing
is focused or the focused reference is not in the list, else the position of
the focused reference plus one. -/
def manualStart (order : List Nat) (focused : Option Nat) : Nat :=
  match focused with
  | none => 0
  | some g =>
    match listPos order g with
    | none => 0
    | some i => i + 1

/-- The manual-order loop of `CaribouFocus::cycle` (`focus.rs` 124-143):
index the list at `cur` (panicking when `cur` is out of range, as
`manual_order[cur]` does — in particular on an empty list); when the entry
resolves and accepts focus, return unchanged if the current focus is locked,
else focus that gadget; otherwise step to `(cur + 1) % len` and stop with the
state unchanged once the scan returns to `start`. -/
def manualScan (w : World) (order : List Nat) (focused : Option Nat) (start : Nat) :
    Nat → Nat → CycleRes
  | 0, _ => .fuelOut
  | fuel + 1, cur =>
    if h : cur < order.length then
      if candidateAccepts w (order.get ⟨cur, h⟩) then
        if focusLocked w focused then .ok focused
        else .ok (some (order.get ⟨cur, h⟩))
      else if (cur + 1) % order.length = start then .ok focused
      else manualScan w order focused start fuel ((cur + 1) % order.length)
    else .panicked

/-- `CaribouFocus::cycle` in manual mode (`focus.rs` 114-143). A full circle
of the scan takes `order.length` steps, so the budget `order.length + 1`
never runs out. -/
def cycleManual (w : World) (order : List Nat) (focused : Option Nat) : CycleRes :=
  manualScan w order focused (manualStart order focused)
    (order.length + 1) (manualStart order focused)

/-- One frame of the explicit stack of `focus_propagate`
(`focus.rs` 205-208). -/
structure Frame where
  children : List Nat
  index : Nat
  deriving DecidableEq

/-- The stack loop of `focus_propagate` (`focus.rs` 214-231): pop a finished
frame; otherwise take the child at the frame's index, advance the index,
return the child if its `accept_focus` cell is true, and push its children
as a new top frame if it propagates.  The children lists hold strong
handles, so fields are read directly (no aliveness check in the source). -/
def focusPropagateAux (w : World) : Nat → List Frame → Option Nat
  | 0, _ => none
  | _ + 1, [] => none
  | fuel + 1, top :: rest =>
    if h : top.index < top.children.length then
      if (w (top.children.get ⟨top.index, h⟩)).acceptFocus then
        some (top.children.get ⟨top.index, h⟩)
      else if (w (top.children.get ⟨top.index, h⟩)).propagate then
        focusPropagateAux w fuel
          (⟨(w (top.children.get ⟨top.index, h⟩)).children, 0⟩ ::
            ⟨top.children, top.index + 1⟩ :: rest)
      else
        focusPropagateAux w fuel (⟨top.children, top.index + 1⟩ :: rest)
    else
      focusPropagateAux w fuel rest

/-- `focus_propagate(gadget, from)` (`focus.rs` 204-232). -/
def focusPropagate (w : World) (g : Nat) (start fuel : Nat) : Option Nat :=
  focusPropagateAux w fuel [⟨(w g).children, start⟩]

/-- The unfocused branch of automatic `cycle` (`focus.rs` 161-175): when the
root propagates, distribute from it at index 0 and focus the result if any;
the tracker cell keeps its previous value otherwise. -/
def autoFromRoot (w : World) (root : Nat) (trFocused : Option Nat) (pf : Nat) :
    CycleRes :=
  if (w root).propagate then
    match focusPropagate w root 0 pf with
    | some nxt => .ok (some nxt)
    | none => .ok trFocused
  else .ok trFocused

/-- The upward walk of automatic `cycle` when a focus holder was cleared
(`focus.rs` 176-198): stop at a none/window parent (the cell stays cleared);
`gr.get().unwrap()` panics on a dead parent reference; at a propagating
parent find the child's position (`position(..).unwrap()`) and distribute
from the next sibling index; focus the first hit, else climb. -/
def autoClimb (w : World) (pf : Nat) : Nat → Nat → CycleRes
  | 0, _ => .fuelOut
  | cf + 1, cur =>
    match (w cur).parent with
    | .none => .ok none
    | .window => .ok none
    | .gadget pid =>
      if (w pid).alive then
        if (w pid).propagate then
          match listPos (w pid).children cur with
          | none => .panicked
          | some idx =>
            match focusPropagate w pid (idx + 1) pf with
            | some nxt => .ok (some nxt)
            | none => autoClimb w pf cf pid
        else autoClimb w pf cf pid
      else .panicked

/-- `CaribouFocus::cycle` in automatic mode (`focus.rs` 144-201): a live,
unlocked focus holder is cleared and the climb starts from it; a locked
holder returns unchanged; otherwise (no focus, or a dead focused reference,
which is not cleared) distribute from the window root. -/
def cycleAuto (w : World) (root : Nat) (trFocused : Option Nat) (pf cf : Nat) :
    CycleRes :=
  match trFocused with
  | none => autoFromRoot w root trFocused pf
  | some g =>
    if (w g).alive then
      if (w g).lockFocus then .ok trFocused
      else autoClimb w pf cf g
    else autoFromRoot w root trFocused pf

/-- A world in which every gadget is alive, refuses focus, and is detached:
used as an arbitrary environment for the manual-order theorems. -/
def wRefuse : World :=
  fun _ => ⟨true, false, false, false, .none, []⟩

/-- A world with a propagating root 0 whose child 1 both propagates and
accepts focus and itself has an accepting child 2. -/
def wWC : World :=
  fun i =>
    if i = 0 then ⟨true, false, false, true, .window, [1]⟩
    else if i = 1 then ⟨true, true, false, true, .gadget 0, [2]⟩
    else if i = 2 then ⟨true, true, false, false, .gadget 1, []⟩
    else ⟨false, false, false, false, .none, []⟩

/-- A world with a propagating root 0 attached to the window and two
non-propagating always-accepting children 1 and 2, in that order. -/
def wXY : World :=
  fun i =>
    if i = 0 then ⟨true, false, false, true, .window, [1, 2]⟩
    else if i = 1 then ⟨true, true, false, false, .gadget 0, []⟩
    else if i = 2 then ⟨true, true, false, false, .gadget 0, []⟩
    else ⟨false, false, false, false, .none, []⟩

/-- Claim C1.  The claim states that on the scalar `State<T>` cell a
`listen(name, f)` followed by `remove_listener(name)` removes the listener
so that `f` is no longer notified.  In the source `State::listen` never
pushes `name` onto `identities`, so `remove_listener` finds no entry:
starting from the empty registry, after `listen("n", 7)` the call
`remove_listener("n")` changes nothing and `7` is still among the targets of
`notify`. -/
theorem scalar_listen_remove_listener_bug :
    ScalarState.removeListener (ScalarState.listen ⟨[], []⟩ "n" 7) "n" =
      ScalarState.listen ⟨[], []⟩ "n" 7 ∧
    7 ∈ (ScalarState.removeListener
      (ScalarState.listen ⟨[], []⟩ "n" 7) "n").notifyTargets := by
  decide

/-- Claim C2.  The claim states that manual-mode `cycle()` drops stale
entries and handles an emptied manual list without panicking.  In the
source no entry is ever dropped and `manual_order[cur]` is evaluated first,
so with an empty manual list the very first index access panics — both when
nothing is focused and when a node is focused. -/
theorem cycleManual_empty_list_panics :
    cycleManual wRefuse [] none = .panicked ∧
    cycleManual wRefuse [] (some 0) = .panicked := by
  decide

/-- Claim C3, counterexample.  Manual order `[0, 1]`, gadget 0 focused, both
entries alive but refusing focus: the scan starts at index 1, circles back
to 1 without acceptance, and `cycle()` returns with the tracker still on
gadget 0 — it does not transition to Unfocused as the claim states. -/
theorem cycleManual_no_acceptor_cex :
    cycleManual wRefuse [0, 1] (some 0) = .ok (some 0) ∧
    cycleManual wRefuse [0, 1] (some 0) ≠ .ok none := by
  decide

/-- Claim C4, counterexample.  In world `wWC`, gadget 1 propagates, accepts
focus, and has an accepting descendant 2.  The automatic search from root 0
returns the propagating container 1 itself: acceptance is tested before
recursion, contradicting both halves of the claim (the claimed search would
have returned 2 and never 1). -/
theorem focusPropagate_returns_propagating_cex :
    focusPropagate wWC 0 0 10 = some 1 ∧
    (wWC 1).propagate = true ∧ (wWC 2).acceptFocus = true := by
  decide

/-- Claim C5, counterexample.  `StateVec::remove_at` with an out-of-range
index does not signal a NotFound failure to the caller: on the one-element
list `[5]` with index 1 it panics (`Vec::remove` index out of bounds). -/
theorem removeAt_out_of_range_panics_cex :
    StateVec.removeAt [5] 1 = .panicked := by
  decide

/-- Claim C6.  The claim states that every remove-listener operation is a
silent no-op for a never-registered name.  That holds for the pattern used
by the scalar, list and map cells, but `OptionalState::remove_listener_set`
(and its unset/change twins) `unwrap` the position lookup and panic: with
one listener registered under "a", removing the never-registered name "x"
panics on the optional cell while the list cell leaves the registry
unchanged. -/
theorem optional_remove_listener_unregistered_panics :
    OptionalState.removeListenerSet [5] ["a"] "x" = .panicked ∧
    StateVec.removeListenerAdd [5] ["a"] "x" = ([5], ["a"]) := by
  decide

/-- Claim C9.  `Layout::remove_child` detaches through the raw write guard
(`retain`), so its scheduled remove-event list is empty for every children
list, while `StateVec::push` (used by `add_child`) schedules exactly one add
event carrying the index of the appended element. -/
theorem removeChild_silent_push_notifies :
    (∀ (l : List Nat) (c : Nat), (Layout.childrenRetain l c).2 = []) ∧
    (∀ (l : List Nat) (v : Nat), (StateVec.push l v).2 = [⟨l.length, v⟩]) := by
  refine ⟨fun l c => rfl, fun l v => ?_⟩
  simp [StateVec.push]

/-- Claim C10.  `StateVec::pop` on the empty list returns `None`, leaves the
list empty and schedules no remove event; on any non-empty list `l ++ [v]`
it removes and returns the last element `v` and schedules exactly one remove
event whose index is the length of the list after removal and whose old
value is `v`. -/
theorem pop_empty_none_last_event :
    (StateVec.pop ([] : List Nat) = (none, [], [])) ∧
    (∀ {α : Type} (l : List α) (v : α),
      StateVec.pop (l ++ [v]) = (some v, l, [⟨l.length, v⟩])) := by
  refine ⟨rfl, fun l v => ?_⟩
  simp [StateVec.pop, List.getLast?_concat, List.dropLast_concat]

/-- Claim C5, amended.  For every map cell, `remove(k)` with `k` absent
returns `None`, schedules no event and leaves the map unchanged; for every
ordered-list cell, `remove_at(i)` with `i` out of range panics
(`Vec::remove` index out of bounds) rather than returning a NotFound
failure. -/
theorem remove_missing_key_and_index :
    (∀ {α : Type} (l : List α) (i : Nat), l.length ≤ i →
      StateVec.removeAt l i = .panicked) ∧
    (∀ {K V : Type} [DecidableEq K] (m : List (K × V)) (k : K),
      assocLookup m k = none → StateMap.remove m k = (none, m, [])) := by
  constructor
  · intro α l i h
    unfold StateVec.removeAt
    rw [dif_neg (by omega)]
  · intro K V _ m k h
    unfold StateMap.remove
    rw [h]

/-- Witness for `remove_missing_key_and_index` at concrete inputs. -/
theorem remove_missing_key_and_index_witness :
    StateVec.removeAt ([5] : List Nat) 2 = .panicked ∧
    StateMap.remove [("a", 1)] "b" = (none, [("a", 1)], []) :=
  ⟨remove_missing_key_and_index.1 [5] 2 (by decide),
   remove_missing_key_and_index.2 [("a", 1)] "b" (by decide)⟩

/-- A retain-filter keeping everything different from `c` leaves a list
without `c` unchanged. -/
theorem filter_bne_of_not_mem (l : List Nat) (c : Nat) (h : c ∉ l) :
    l.filter (fun x => x != c) = l := by
  induction l with
  | nil => rfl
  | cons a t ih =>
    have h1 : ¬(c = a) ∧ c ∉ t := by
      constructor
      · intro e; exact h (by simp [List.mem_cons, e])
      · intro e; exact h (List.mem_cons_of_mem _ e)
    have hba : (a != c) = true := by
      simp only [bne_iff_ne, ne_eq]
      exact fun e => h1.1 e.symm
    rw [List.filter_cons, if_pos hba, ih h1.2]

/-- `setParent` writes the parent cell of its target. -/
theorem setParent_parent_self (w : World) (c : Nat) (p : GadgetParent) :
    ((setParent w c p) c).parent = p := by
  simp [setParent]

/-- `setParent` touches no children cell. -/
theorem setParent_children (w : World) (c : Nat) (p : GadgetParent) (i : Nat) :
    ((setParent w c p) i).children = (w i).children := by
  unfold setParent
  by_cases h : i = c <;> simp [h]

/-- `pushChild` appends to the parent's children cell. -/
theorem pushChild_children_self (w : World) (p c : Nat) :
    ((pushChild w p c) p).children = (w p).children ++ [c] := by
  simp [pushChild]

/-- `retainChildren` touches no parent cell. -/
theorem retainChildren_parent (w : World) (p c i : Nat) :
    ((retainChildren w p c) i).parent = (w i).parent := by
  unfold retainChildren
  by_cases h : i = p <;> simp [h]

/-- `retainChildren` filters the parent's children cell. -/
theorem retainChildren_children_self (w : World) (p c : Nat) :
    ((retainChildren w p c) p).children =
      (w p).children.filter (fun x => x != c) := by
  simp [retainChildren]

/-- Claim C8.  If `C`'s parent cell is none and `C` is not in `P`'s children
list, then `add_child(P, C)` followed by `remove_child(P, C)` restores both
`C`'s parent cell and `P`'s children list to their pre-call values. -/
theorem addChild_removeChild_roundtrip (w : World) (p c : Nat)
    (hpar : (w c).parent = .none) (hmem : c ∉ (w p).children) :
    ((Layout.removeChild (Layout.addChild w p c) p c) c).parent = (w c).parent ∧
    ((Layout.removeChild (Layout.addChild w p c) p c) p).children =
      (w p).children := by
  constructor
  · rw [Layout.removeChild, Layout.addChild, retainChildren_parent,
      setParent_parent_self, hpar]
  · rw [Layout.removeChild, Layout.addChild, retainChildren_children_self,
      setParent_children, pushChild_children_self, setParent_children,
      List.filter_append, filter_bne_of_not_mem _ _ hmem]
    simp

/-- Witness for `addChild_removeChild_roundtrip` at a concrete world. -/
theorem addChild_removeChild_roundtrip_witness :
    ((Layout.removeChild (Layout.addChild wRefuse 0 1) 0 1) 1).parent =
      (wRefuse 1).parent ∧
    ((Layout.removeChild (Layout.addChild wRefuse 0 1) 0 1) 0).children =
      (wRefuse 0).children :=
  addChild_removeChild_roundtrip wRefuse 0 1 rfl (by decide)

/-- Number of loop iterations the manual scan needs to walk from `cur` back
to `start` stepping `+1 (mod len)`. -/
def scanDist (len start cur : Nat) : Nat :=
  if cur < start then start - cur else start + len - cur

/-- When no entry of the manual order resolves to an accepting gadget, the
scan walks the full circle back to `start` and ends with the tracker state
unchanged, for every step budget at least `scanDist`. -/
theorem manualScan_no_acceptor (w : World) (order : List Nat)
    (focused : Option Nat) (start : Nat) (hstart : start < order.length)
    (hnoacc : ∀ g ∈ order, candidateAccepts w g = false) :
    ∀ fuel cur, cur < order.length →
      scanDist order.length start cur ≤ fuel →
      manualScan w order focused start fuel cur = .ok focused := by
  intro fuel
  induction fuel with
  | zero =>
    intro cur hcur hd
    unfold scanDist at hd
    split at hd <;> omega
  | succ n ih =>
    intro cur hcur hd
    have hacc : candidateAccepts w (order.get ⟨cur, hcur⟩) = false :=
      hnoacc _ (order.get_mem cur hcur)
    unfold manualScan
    rw [dif_pos hcur, hacc, if_neg (by simp)]
    by_cases heq : (cur + 1) % order.length = start
    · rw [if_pos heq]
    · rw [if_neg heq]
      have hlen : 0 < order.length := by omega
      by_cases hc : cur + 1 < order.length
      · have hmod : (cur + 1) % order.length = cur + 1 := Nat.mod_eq_of_lt hc
        rw [hmod] at heq ⊢
        apply ih (cur + 1) hc
        unfold scanDist at hd ⊢
        split at hd <;> split <;> omega
      · have hc2 : cur + 1 = order.length := by omega
        have hmod : (cur + 1) % order.length = 0 := by rw [hc2, Nat.mod_self]
        rw [hmod] at heq ⊢
        apply ih 0 hlen
        unfold scanDist at hd ⊢
        split at hd <;> split <;> omega

/-- Claim C3, amended.  For a tracker in manual mode with a non-empty manual
list whose computed start index is in range, if no entry of the list
resolves to a gadget accepting focus (so the circular scan returns to the
start index without acceptance), `cycle()` leaves the tracker state
unchanged — a previously focused node still holds focus; it does not
transition to Unfocused. -/
theorem cycleManual_no_acceptor_unchanged (w : World) (order : List Nat)
    (focused : Option Nat)
    (hstart : manualStart order focused < order.length)
    (hnoacc : ∀ g ∈ order, candidateAccepts w g = false) :
    cycleManual w order focused = .ok focused := by
  unfold cycleManual
  apply manualScan_no_acceptor w order focused _ hstart hnoacc _ _ hstart
  unfold scanDist
  split <;> omega

/-- Witness for `cycleManual_no_acceptor_unchanged` at a concrete tracker. -/
theorem cycleManual_no_acceptor_unchanged_witness :
    cycleManual wRefuse [3, 4] (some 3) = .ok (some 3) :=
  cycleManual_no_acceptor_unchanged wRefuse [3, 4] (some 3) (by decide)
    (by decide)

/-- Step lemma: the search returns the child under scan as soon as its
`accept_focus` cell is true, before any recursion into it. -/
theorem fpAux_step_accept (w : World) (n : Nat) (top : Frame)
    (rest : List Frame) (h : top.index < top.children.length)
    (hacc : (w (top.children.get ⟨top.index, h⟩)).acceptFocus = true) :
    focusPropagateAux w (n + 1) (top :: rest) =
      some (top.children.get ⟨top.index, h⟩) := by
  unfold focusPropagateAux
  rw [dif_pos h, if_pos hacc]

/-- Claim C4, amended.  The automatic focus search tests each child's own
acceptance before recursing into its subtree: a child whose `accept_focus`
cell is true is returned immediately, and every gadget the search returns
has `accept_focus` true — so a propagating container that does not accept
focus (in particular one with zero focusable descendants) is never itself
returned as the focus target. -/
theorem focusPropagate_accept_first :
    (∀ (w : World) (fuel : Nat) (stack : List Frame) (g : Nat),
      focusPropagateAux w fuel stack = some g → (w g).acceptFocus = true) ∧
    (∀ (w : World) (fuel : Nat) (top : Frame) (rest : List Frame)
      (h : top.index < top.children.length),
      (w (top.children.get ⟨top.index, h⟩)).acceptFocus = true →
      focusPropagateAux w (fuel + 1) (top :: rest) =
        some (top.children.get ⟨top.index, h⟩)) := by
  constructor
  · intro w fuel
    induction fuel with
    | zero =>
      intro stack g hg
      simp [focusPropagateAux] at hg
    | succ n ih =>
      intro stack g hg
      match stack with
      | [] => simp [focusPropagateAux] at hg
      | top :: rest =>
        unfold focusPropagateAux at hg
        by_cases h : top.index < top.children.length
        · rw [dif_pos h] at hg
          by_cases hacc : (w (top.children.get ⟨top.index, h⟩)).acceptFocus = true
          · rw [if_pos hacc] at hg
            injection hg with h2
            exact h2 ▸ hacc
          · rw [if_neg hacc] at hg
            by_cases hp : (w (top.children.get ⟨top.index, h⟩)).propagate = true
            · rw [if_pos hp] at hg
              exact ih _ g hg
            · rw [if_neg hp] at hg
              exact ih _ g hg
        · rw [dif_neg h] at hg
          exact ih _ g hg
  · intro w fuel top rest h hacc
    exact fpAux_step_accept w fuel top rest h hacc

/-- Witness for `focusPropagate_accept_first` at a concrete world. -/
theorem focusPropagate_accept_first_witness :
    (wWC 2).acceptFocus = true ∧
    focusPropagateAux wWC 1 [⟨[2], 0⟩] = some 2 :=
  ⟨focusPropagate_accept_first.1 wWC 1 [⟨[2], 0⟩] 2 (by decide),
   focusPropagate_accept_first.2 wWC 0 ⟨[2], 0⟩ [] (by decide) (by decide)⟩

/-- Claim C7.  For every world in which gadget `r` is a propagating root
attached to the window with exactly the non-propagating, always-accepting,
never-locking children `x` then `y`: starting Unfocused, the first automatic
`cycle()` focuses `x`, the second focuses `y`, and the third leaves the
tracker Unfocused. -/
theorem autoCycle_two_children (w : World) (r x y : Nat) (hxy : x ≠ y)
    (hr : w r = ⟨true, false, false, true, .window, [x, y]⟩)
    (hx : w x = ⟨true, true, false, false, .gadget r, []⟩)
    (hy : w y = ⟨true, true, false, false, .gadget r, []⟩) :
    cycleAuto w r none 4 4 = .ok (some x) ∧
    cycleAuto w r (some x) 4 4 = .ok (some y) ∧
    cycleAuto w r (some y) 4 4 = .ok none := by
  refine ⟨?_, ?_, ?_⟩
  · simp [cycleAuto, autoFromRoot, focusPropagate, focusPropagateAux, hr, hx]
  · simp [cycleAuto, autoClimb, autoFromRoot, focusPropagate,
      focusPropagateAux, listPos, hr, hx, hy]
  · simp [cycleAuto, autoClimb, autoFromRoot, focusPropagate,
      focusPropagateAux, listPos, hr, hx, hy, hxy]

/-- Witness for `autoCycle_two_children` at the concrete world `wXY`. -/
theorem autoCycle_two_children_witness :
    cycleAuto wXY 0 none 4 4 = .ok (some 1) ∧
    cycleAuto wXY 0 (some 1) 4 4 = .ok (some 2) ∧
    cycleAuto wXY 0 (some 2) 4 4 = .ok none :=
  autoCycle_two_children wXY 0 1 2 (by decide) rfl rfl rfl

end Caribou
